import Mathlib

/-!
Shallow embedding of the scrape-aggregate-redact pipeline of
`cmd/server/routes.go` (kubeview backend), and proofs about its
sanitization, aggregation and error behaviour.

Strings and byte slices are modelled as `List Char`.  Go slices are
modelled as `Option (List α)` (`none` is a nil slice, which serializes
to JSON `null`; `some xs` is a non-nil slice).  Go maps are modelled as
association lists `List (String × List Char)`: the code only ever
rewrites the value at each existing key, so the association-list model
is faithful for key sets and values.
-/

set_option autoImplicit false

namespace KubeView

/-- A Go slice: `none` models a nil slice, `some xs` a non-nil slice. -/
def GoSlice (α : Type) : Type := Option (List α)

/-- `range` over a Go slice: a nil slice iterates zero times. -/
def GoSlice.elems {α : Type} (s : GoSlice α) : List α := Option.getD s []

/-! ### The certificate regular expression

`routes.go` line 51 compiles
`(?i)-----+BEGIN\s+CERTIFICATE-----+[^\-]+-----+END\s+CERTIFICATE-----+`
and `ReplaceAll`s every match with `__CERTIFICATE REDACTED__`.

Every quantified sub-pattern (`-----+`, `\s+`, `[^\-]+`) is over a
character class disjoint from the character that must follow it, so the
RE2 match at a given start position is deterministic: each run is the
maximal run of its class.  `matchCertAt` below implements exactly that
match attempt, and `redactAux` the leftmost-scan `ReplaceAll` loop. -/

/-- The character class of `-` in the regex. -/
def isDash (c : Char) : Bool := c = '-'

/-- RE2's `\s` class: space, tab, newline, form feed, carriage return. -/
def isSpaceCh (c : Char) : Bool :=
  c = ' ' || c = '\t' || c = '\n' || c = '\x0c' || c = '\r'

/-- Case-insensitive character comparison, as induced by the `(?i)` flag. -/
def ciChar (a b : Char) : Bool := a.toLower = b.toLower

/-- Split off the maximal run of characters satisfying `p`:
returns the run length and the remainder. -/
def dropRun (p : Char → Bool) : List Char → Nat × List Char
  | [] => (0, [])
  | c :: cs =>
    if p c then ((dropRun p cs).1 + 1, (dropRun p cs).2)
    else (0, c :: cs)

/-- Match a literal word case-insensitively at the head of the input,
returning the remainder on success. -/
def matchCIWord : List Char → List Char → Option (List Char)
  | [], s => some s
  | _ :: _, [] => none
  | w :: ws, c :: cs => if ciChar w c then matchCIWord ws cs else none

def beginWord : List Char := ['B', 'E', 'G', 'I', 'N']

def endWord : List Char := ['E', 'N', 'D']

def certWord : List Char :=
  ['C', 'E', 'R', 'T', 'I', 'F', 'I', 'C', 'A', 'T', 'E']

/-- The regex piece `-----+`: a maximal run of at least five dashes. -/
def reqDashes (s : List Char) : Option (List Char) :=
  if (dropRun isDash s).1 < 5 then none else some (dropRun isDash s).2

/-- The regex piece `\s+`: a maximal nonempty run of whitespace. -/
def reqSpaces (s : List Char) : Option (List Char) :=
  if (dropRun isSpaceCh s).1 = 0 then none else some (dropRun isSpaceCh s).2

/-- The regex piece `[^\-]+`: a maximal nonempty run of non-dashes. -/
def reqBody (s : List Char) : Option (List Char) :=
  if (dropRun (fun c => !(isDash c)) s).1 = 0 then none
  else some (dropRun (fun c => !(isDash c)) s).2

/-- Attempt the certificate regex at the head of `s`; on success return
the input remaining after the match.  Mirrors
`-----+BEGIN\s+CERTIFICATE-----+[^\-]+-----+END\s+CERTIFICATE-----+`
with `(?i)` on the letter words.  Because each quantified run's class
excludes the character that must follow it, each run in a successful
RE2 match is forced to be the maximal run, which is what the `req`
pieces compute; so this deterministic scan is the regex match. -/
def matchCertAt (s : List Char) : Option (List Char) :=
  (reqDashes s).bind fun s1 =>
  (matchCIWord beginWord s1).bind fun s2 =>
  (reqSpaces s2).bind fun s3 =>
  (matchCIWord certWord s3).bind fun s4 =>
  (reqDashes s4).bind fun s5 =>
  (reqBody s5).bind fun s6 =>
  (reqDashes s6).bind fun s7 =>
  (matchCIWord endWord s7).bind fun s8 =>
  (reqSpaces s8).bind fun s9 =>
  (matchCIWord certWord s9).bind fun s10 =>
  reqDashes s10

/-- The replacement written for every regex match (`routes.go` line 52). -/
def certSentinel : List Char :=
  ['_', '_', 'C', 'E', 'R', 'T', 'I', 'F', 'I', 'C', 'A', 'T', 'E',
   ' ', 'R', 'E', 'D', 'A', 'C', 'T', 'E', 'D', '_', '_']

/-- Leftmost-scan replace-all loop; `fuel` bounds the recursion and is
always instantiated with the input length, which suffices because a
successful match consumes at least one character. -/
def redactAux : Nat → List Char → List Char
  | 0, s => s
  | _ + 1, [] => []
  | fuel + 1, c :: cs =>
    match matchCertAt (c :: cs) with
    | some rest => certSentinel ++ redactAux fuel rest
    | none => c :: redactAux fuel cs

/-- `redactCertificates` (`routes.go` lines 50–53): replace every match
of the certificate regex with the sentinel. -/
def redactCertificates (s : List Char) : List Char := redactAux s.length s

/-- Whether the certificate regex matches at some position of `s`. -/
def hasCertMatch : List Char → Bool
  | [] => false
  | c :: cs => (matchCertAt (c :: cs)).isSome || hasCertMatch cs

/-- `v` is a case variant of the word `w` (what `(?i)` accepts for it). -/
def CaseVariant (w v : List Char) : Prop :=
  List.Forall₂ (fun a b => ciChar a b = true) w v

/-- The canonical form of the block, `-----BEGIN CERTIFICATE-----`
(five dashes, upper case, one space) through
`-----END CERTIFICATE-----`, around a body. -/
def dash5 : List Char := ['-', '-', '-', '-', '-']

def certBlockOf (body : List Char) : List Char :=
  dash5 ++ beginWord ++ [' '] ++ certWord ++ dash5 ++ body
    ++ dash5 ++ endWord ++ [' '] ++ certWord ++ dash5

/-! ### Data model: Secrets, ConfigMaps, opaque objects

Only the fields the pipeline reads or writes are modelled; every other
kind-specific payload is represented by the opaque `name`-style fields,
which the pipeline never touches. -/

structure Secret where
  name : List Char
  data : List (String × List Char)
  stringData : List (String × List Char)
  annotations : List (String × List Char)
  secretType : List Char
deriving DecidableEq

structure ConfigMap where
  name : List Char
  data : List (String × List Char)
  binaryData : List (String × List Char)
  annotations : List (String × List Char)
deriving DecidableEq

/-- An object of one of the ten kinds the pipeline passes through
untouched (pods, services, …); its contents are opaque. -/
structure RawObj where
  name : List Char
deriving DecidableEq

/-- `for key, value := range m ... m[key] = redactCertificates(value)`:
every key keeps its entry, every value is redacted. -/
def redactValues (m : List (String × List Char)) :
    List (String × List Char) :=
  m.map fun kv => (kv.1, redactCertificates kv.2)

/-- Loop body of `redactSecrets` (`routes.go` lines 76–101): the
`Data`, `Annotations` and `StringData` maps each have every value run
through `redactCertificates` (the two branches of the annotation `if`
at lines 84–90 perform the identical call, so they are one map). -/
def redactSecret (s : Secret) : Secret :=
  { s with
    data := redactValues s.data
    annotations := redactValues s.annotations
    stringData := redactValues s.stringData }

/-- `redactSecrets` (`routes.go` lines 75–103). -/
def redactSecrets (secrets : List Secret) : List Secret :=
  secrets.map redactSecret

/-- ConfigMap loop of `routeScrapeData` (lines 277–285): redact
certificates in `Data` and `BinaryData` values; annotations and
everything else untouched. -/
def redactConfigMap (cm : ConfigMap) : ConfigMap :=
  { cm with
    data := redactValues cm.data
    binaryData := redactValues cm.binaryData }

/-- The Helm release marker `sh.helm.release` tested with
`strings.HasPrefix` at `routes.go` line 270. -/
def helmMarker : List Char :=
  ['s', 'h', '.', 'h', 'e', 'l', 'm', '.', 'r', 'e', 'l', 'e', 'a', 's', 'e']

/-- The predicate passed to `filterSecrets` at lines 269–271. -/
def keepSecret (v : Secret) : Bool := !(List.isPrefixOf helmMarker v.name)

/-- The `for … append` loop of `filterSecrets` (lines 336–340),
accumulator-style. -/
def filterSecretsLoop (f : Secret → Bool) :
    List Secret → List Secret → List Secret
  | acc, [] => acc
  | acc, s :: rest => filterSecretsLoop f (if f s then acc ++ [s] else acc) rest

/-- `filterSecrets` (`routes.go` lines 334–342): starts from
`make([]apiv1.Secret, 0)` — a fresh non-nil empty slice — and appends
the elements satisfying `f`; a nil input slice iterates zero times. -/
def filterSecrets (secretList : GoSlice Secret) (f : Secret → Bool) :
    GoSlice Secret :=
  some (filterSecretsLoop f [] secretList.elems)

/-! ### The scrape envelope and the handler -/

instance {α : Type} [DecidableEq α] : DecidableEq (GoSlice α) :=
  inferInstanceAs (DecidableEq (Option (List α)))

structure scrapeData where
  Pods : GoSlice RawObj
  Services : GoSlice RawObj
  Endpoints : GoSlice RawObj
  PersistentVolumes : GoSlice RawObj
  PersistentVolumeClaims : GoSlice RawObj
  Deployments : GoSlice RawObj
  DaemonSets : GoSlice RawObj
  ReplicaSets : GoSlice RawObj
  StatefulSets : GoSlice RawObj
  Ingresses : GoSlice RawObj
  ConfigMaps : GoSlice ConfigMap
  Secrets : GoSlice Secret
deriving DecidableEq

/-- The outcomes of the twelve per-kind list queries issued by
`routeScrapeData` (lines 184–266), one `Except` per query, in the
order the code issues them. -/
structure ClusterQueries where
  pods : Except (List Char) (GoSlice RawObj)
  services : Except (List Char) (GoSlice RawObj)
  endpoints : Except (List Char) (GoSlice RawObj)
  pvs : Except (List Char) (GoSlice RawObj)
  pvcs : Except (List Char) (GoSlice RawObj)
  configmaps : Except (List Char) (GoSlice ConfigMap)
  secrets : Except (List Char) (GoSlice Secret)
  deployments : Except (List Char) (GoSlice RawObj)
  daemonsets : Except (List Char) (GoSlice RawObj)
  replicasets : Except (List Char) (GoSlice RawObj)
  statefulsets : Except (List Char) (GoSlice RawObj)
  ingresses : Except (List Char) (GoSlice RawObj)

inductive ScrapeResponse where
  | errorResp (status : Nat) (msg : List Char)
  | okResp (body : List Char)
deriving DecidableEq

def internalErrorMsg : List Char := "Internal Server Error".toList

/-- Sanitization and assembly part of `routeScrapeData`
(lines 268–301): filter Helm release secrets, redact the remaining
secrets, redact configmap certificate data, build the envelope. -/
def buildScrape (pods services endpoints pvs pvcs : GoSlice RawObj)
    (configmaps : GoSlice ConfigMap) (secrets : GoSlice Secret)
    (deployments daemonsets replicasets statefulsets ingresses :
      GoSlice RawObj) : scrapeData :=
  { Pods := pods
    Services := services
    Endpoints := endpoints
    PersistentVolumes := pvs
    PersistentVolumeClaims := pvcs
    Deployments := deployments
    DaemonSets := daemonsets
    ReplicaSets := replicasets
    StatefulSets := statefulsets
    Ingresses := ingresses
    ConfigMaps := Option.map (List.map redactConfigMap) configmaps
    Secrets := Option.map redactSecrets (filterSecrets secrets keepSecret) }

/-- `routeScrapeData` (lines 177–317): check each query in code order,
returning `http.Error(resp, err.Error(), 500)` at the first failure;
then sanitize, build the envelope and marshal it, answering a generic
500 if marshalling fails.  The marshaller is a parameter so that both
the real serialization and a failing one can be plugged in. -/
def routeScrapeData (q : ClusterQueries)
    (marshal : scrapeData → Except (List Char) (List Char)) :
    ScrapeResponse :=
  match q.pods with
  | .error e => .errorResp 500 e
  | .ok pods =>
  match q.services with
  | .error e => .errorResp 500 e
  | .ok services =>
  match q.endpoints with
  | .error e => .errorResp 500 e
  | .ok endpoints =>
  match q.pvs with
  | .error e => .errorResp 500 e
  | .ok pvs =>
  match q.pvcs with
  | .error e => .errorResp 500 e
  | .ok pvcs =>
  match q.configmaps with
  | .error e => .errorResp 500 e
  | .ok configmaps =>
  match q.secrets with
  | .error e => .errorResp 500 e
  | .ok secrets =>
  match q.deployments with
  | .error e => .errorResp 500 e
  | .ok deployments =>
  match q.daemonsets with
  | .error e => .errorResp 500 e
  | .ok daemonsets =>
  match q.replicasets with
  | .error e => .errorResp 500 e
  | .ok replicasets =>
  match q.statefulsets with
  | .error e => .errorResp 500 e
  | .ok statefulsets =>
  match q.ingresses with
  | .error e => .errorResp 500 e
  | .ok ingresses =>
  match marshal (buildScrape pods services endpoints pvs pvcs configmaps
      secrets deployments daemonsets replicasets statefulsets ingresses) with
  | .error _ => .errorResp 500 internalErrorMsg
  | .ok body => .okResp body

/-- The message of the first failing query in the order the code checks
them, if any. -/
def firstQueryError (q : ClusterQueries) : Option (List Char) :=
  match q.pods with
  | .error e => some e
  | .ok _ =>
  match q.services with
  | .error e => some e
  | .ok _ =>
  match q.endpoints with
  | .error e => some e
  | .ok _ =>
  match q.pvs with
  | .error e => some e
  | .ok _ =>
  match q.pvcs with
  | .error e => some e
  | .ok _ =>
  match q.configmaps with
  | .error e => some e
  | .ok _ =>
  match q.secrets with
  | .error e => some e
  | .ok _ =>
  match q.deployments with
  | .error e => some e
  | .ok _ =>
  match q.daemonsets with
  | .error e => some e
  | .ok _ =>
  match q.replicasets with
  | .error e => some e
  | .ok _ =>
  match q.statefulsets with
  | .error e => some e
  | .ok _ =>
  match q.ingresses with
  | .error e => some e
  | .ok _ => none

/-! ### JSON serialization shape (`encoding/json` on `scrapeData`)

`json.Marshal` on the `scrapeData` struct (no `omitempty` anywhere)
always emits all twelve keys in field order; a field holding a nil
slice is encoded as `null`, a non-nil slice as a JSON array.  Element
encoders are parameters — only the key/array/null shape matters. -/

def marshalSlice {α : Type} (pr : α → List Char) : GoSlice α → List Char
  | none => ['n', 'u', 'l', 'l']
  | some xs => ['['] ++ List.intercalate [','] (xs.map pr) ++ [']']

/-- `"key":value` fragment. -/
def keyField (k v : List Char) : List Char := '"' :: k ++ ['"', ':'] ++ v

/-- `"key":` marker (what must appear for a key to be present). -/
def keyMarker (k : List Char) : List Char := '"' :: k ++ ['"', ':']

/-- The twelve `"key":value` fragments in struct field order. -/
def marshalFrags (prR : RawObj → List Char) (prC : ConfigMap → List Char)
    (prS : Secret → List Char) (d : scrapeData) : List (List Char) :=
  [keyField "pods".toList (marshalSlice prR d.Pods),
   keyField "services".toList (marshalSlice prR d.Services),
   keyField "endpoints".toList (marshalSlice prR d.Endpoints),
   keyField "persistentvolumes".toList (marshalSlice prR d.PersistentVolumes),
   keyField "persistentvolumeclaims".toList
     (marshalSlice prR d.PersistentVolumeClaims),
   keyField "deployments".toList (marshalSlice prR d.Deployments),
   keyField "daemonsets".toList (marshalSlice prR d.DaemonSets),
   keyField "replicasets".toList (marshalSlice prR d.ReplicaSets),
   keyField "statefulsets".toList (marshalSlice prR d.StatefulSets),
   keyField "ingresses".toList (marshalSlice prR d.Ingresses),
   keyField "configmaps".toList (marshalSlice prC d.ConfigMaps),
   keyField "secrets".toList (marshalSlice prS d.Secrets)]

/-- Comma-join of the object fields. -/
def joinFields : List (List Char) → List Char
  | [] => []
  | [x] => x
  | x :: rest => x ++ [','] ++ joinFields rest

def marshalScrapeData (prR : RawObj → List Char)
    (prC : ConfigMap → List Char) (prS : Secret → List Char)
    (d : scrapeData) : List Char :=
  ['\x7b'] ++ joinFields (marshalFrags prR prC prS d) ++ ['\x7d']

def twelveKeys : List (List Char) :=
  ["pods".toList, "services".toList, "endpoints".toList,
   "persistentvolumes".toList, "persistentvolumeclaims".toList,
   "deployments".toList, "daemonsets".toList, "replicasets".toList,
   "statefulsets".toList, "ingresses".toList, "configmaps".toList,
   "secrets".toList]

/-- Boolean substring test (used to state facts about the serialized
envelope on concrete inputs). -/
def containsSub (needle : List Char) : List Char → Bool
  | [] => List.isPrefixOf needle []
  | c :: t => List.isPrefixOf needle (c :: t) || containsSub needle t

/-- Boolean case-insensitive word equality, mirroring `CaseVariant`. -/
def ciWordEq : List Char → List Char → Bool
  | [], [] => true
  | a :: ws, b :: vs => ciChar a b && ciWordEq ws vs
  | _, _ => false

/-- Modelled from the spec: the fixed sentinel string
`__VALUE REDACTED__` which the spec says replaces every Secret
data/string-data value.  This string does not occur anywhere in
`routes.go`; it is defined here only to state the spec claim. -/
def valueSentinel : List Char := "__VALUE REDACTED__".toList

/-! ### Concrete fixtures for instantiating the theorems -/

def helmSecret : Secret :=
  { name := "sh.helm.release.v1.foo.v1".toList
    data := []
    stringData := []
    annotations := []
    secretType := "helm.sh/release.v1".toList }

def dbSecret : Secret :=
  { name := "db-creds".toList
    data := [("password", "cGFzcw==".toList)]
    stringData := []
    annotations := []
    secretType := "Opaque".toList }

/-- Nested certificate markers: the inner block is redacted by the
first pass, after which the outer markers and the dash-free sentinel
form a fresh match for the second pass. -/
def nestedCertInput : List Char :=
  ("-----BEGIN CERTIFICATE-----\n-----BEGIN CERTIFICATE-----\nxx\n"
    ++ "-----END CERTIFICATE-----\n-----END CERTIFICATE-----").toList

def nestedSecret : Secret :=
  { name := "certs".toList
    data := [("chain", nestedCertInput)]
    stringData := []
    annotations := []
    secretType := "Opaque".toList }

def qAllOk : ClusterQueries :=
  { pods := .ok (some [])
    services := .ok (some [])
    endpoints := .ok (some [])
    pvs := .ok (some [])
    pvcs := .ok (some [])
    configmaps := .ok (some [])
    secrets := .ok (some [])
    deployments := .ok (some [])
    daemonsets := .ok (some [])
    replicasets := .ok (some [])
    statefulsets := .ok (some [])
    ingresses := .ok (some []) }

def qFailPods : ClusterQueries :=
  { qAllOk with pods := .error "pods list failed".toList }

def qFailServices : ClusterQueries :=
  { qAllOk with services := .error "services list failed".toList }

/-- All twelve queries succeed but the pods query returns a nil
`Items` slice. -/
def qNilPods : ClusterQueries :=
  { qAllOk with pods := Except.ok none }

def emptyPrinter {α : Type} : α → List Char := fun _ => []

/-- An envelope built by a fully successful request in which the pods
query returned a nil `Items` slice and every other kind an empty
non-nil slice. -/
def envNilPods : scrapeData :=
  buildScrape none (some []) (some []) (some []) (some []) (some [])
    (some []) (some []) (some []) (some []) (some []) (some [])

/-! ### The recursive JSON certificate walker

`redactCertificatesInJSON` (`routes.go` lines 56–73) walks any decoded
JSON value: `map[string]interface ...` and `[]interface ...` are
visited recursively (each key's value, each index's element rewritten
in place), `string` leaves are run through `redactCertificates`, and
the `default` arm returns every other leaf unchanged.  Decoded JSON
values are maps, arrays, strings, numbers, booleans and null. -/

inductive JValue where
  | obj (fields : List (String × JValue))
  | arr (items : List JValue)
  | str (s : List Char)
  | num (n : Int)
  | boolVal (b : Bool)
  | nullVal

mutual

def redactCertificatesInJSON : JValue → JValue
  | .obj fields => .obj (redactFields fields)
  | .arr items => .arr (redactItems items)
  | .str s => .str (redactCertificates s)
  | .num n => .num n
  | .boolVal b => .boolVal b
  | .nullVal => .nullVal

def redactFields : List (String × JValue) → List (String × JValue)
  | [] => []
  | kv :: rest => (kv.1, redactCertificatesInJSON kv.2) :: redactFields rest

def redactItems : List JValue → List JValue
  | [] => []
  | v :: rest => redactCertificatesInJSON v :: redactItems rest

end

/-- The tree shape of a JSON value: mapping keys, sequence structure,
and the kind of each leaf, with leaf contents erased. -/
inductive JShape where
  | obj (fields : List (String × JShape))
  | arr (items : List JShape)
  | strLeaf
  | otherLeaf

mutual

def shapeOf : JValue → JShape
  | .obj fields => .obj (shapeFields fields)
  | .arr items => .arr (shapeItems items)
  | .str _ => .strLeaf
  | .num _ => .otherLeaf
  | .boolVal _ => .otherLeaf
  | .nullVal => .otherLeaf

def shapeFields : List (String × JValue) → List (String × JShape)
  | [] => []
  | kv :: rest => (kv.1, shapeOf kv.2) :: shapeFields rest

def shapeItems : List JValue → List JShape
  | [] => []
  | v :: rest => shapeOf v :: shapeItems rest

end

mutual

/-- All string leaves of a JSON value, in visit order. -/
def strLeaves : JValue → List (List Char)
  | .obj fields => strLeavesFields fields
  | .arr items => strLeavesItems items
  | .str s => [s]
  | .num _ => []
  | .boolVal _ => []
  | .nullVal => []

def strLeavesFields : List (String × JValue) → List (List Char)
  | [] => []
  | kv :: rest => strLeaves kv.2 ++ strLeavesFields rest

def strLeavesItems : List JValue → List (List Char)
  | [] => []
  | v :: rest => strLeaves v ++ strLeavesItems rest

end

mutual

/-- All non-string leaves of a JSON value, in visit order. -/
def otherLeaves : JValue → List JValue
  | .obj fields => otherLeavesFields fields
  | .arr items => otherLeavesItems items
  | .str _ => []
  | .num n => [.num n]
  | .boolVal b => [.boolVal b]
  | .nullVal => [.nullVal]

def otherLeavesFields : List (String × JValue) → List JValue
  | [] => []
  | kv :: rest => otherLeaves kv.2 ++ otherLeavesFields rest

def otherLeavesItems : List JValue → List JValue
  | [] => []
  | v :: rest => otherLeaves v ++ otherLeavesItems rest

end

/-! ### Basic lemmas about the matcher -/

theorem dropRun_length (p : Char → Bool) (s : List Char) :
    (dropRun p s).1 + (dropRun p s).2.length = s.length := by
  induction s with
  | nil => simp [dropRun]
  | cons c cs ih =>
    by_cases h : p c
    · simp [dropRun, h]
      omega
    · simp [dropRun, h]

theorem matchCIWord_length {w s r : List Char}
    (h : matchCIWord w s = some r) : r.length ≤ s.length := by
  induction w generalizing s with
  | nil =>
    simp [matchCIWord] at h
    subst h
    exact Nat.le_refl _
  | cons a ws ih =>
    match s with
    | [] => simp [matchCIWord] at h
    | c :: cs =>
      by_cases hc : ciChar a c
      · simp [matchCIWord, hc] at h
        have := ih h
        simp
        omega
      · simp [matchCIWord, hc] at h

theorem reqDashes_strict {s r : List Char} (h : reqDashes s = some r) :
    r.length + 5 ≤ s.length := by
  unfold reqDashes at h
  split at h
  · exact absurd h (by simp)
  · rename_i hge
    have := dropRun_length isDash s
    simp only [Option.some.injEq] at h
    subst h
    omega

theorem reqDashes_le {s r : List Char} (h : reqDashes s = some r) :
    r.length ≤ s.length := by
  have := reqDashes_strict h
  omega

theorem reqSpaces_le {s r : List Char} (h : reqSpaces s = some r) :
    r.length ≤ s.length := by
  unfold reqSpaces at h
  split at h
  · exact absurd h (by simp)
  · have := dropRun_length isSpaceCh s
    simp only [Option.some.injEq] at h
    subst h
    omega

theorem reqBody_le {s r : List Char} (h : reqBody s = some r) :
    r.length ≤ s.length := by
  unfold reqBody at h
  split at h
  · exact absurd h (by simp)
  · have := dropRun_length (fun c => !(isDash c)) s
    simp only [Option.some.injEq] at h
    subst h
    omega

theorem matchCertAt_length {s r : List Char}
    (h : matchCertAt s = some r) : r.length < s.length := by
  unfold matchCertAt at h
  rcases Option.bind_eq_some.mp h with ⟨s1, h1, h⟩
  rcases Option.bind_eq_some.mp h with ⟨s2, h2, h⟩
  rcases Option.bind_eq_some.mp h with ⟨s3, h3, h⟩
  rcases Option.bind_eq_some.mp h with ⟨s4, h4, h⟩
  rcases Option.bind_eq_some.mp h with ⟨s5, h5, h⟩
  rcases Option.bind_eq_some.mp h with ⟨s6, h6, h⟩
  rcases Option.bind_eq_some.mp h with ⟨s7, h7, h⟩
  rcases Option.bind_eq_some.mp h with ⟨s8, h8, h⟩
  rcases Option.bind_eq_some.mp h with ⟨s9, h9, h⟩
  rcases Option.bind_eq_some.mp h with ⟨s10, h10, h⟩
  have l1 := reqDashes_strict h1
  have l2 := matchCIWord_length h2
  have l3 := reqSpaces_le h3
  have l4 := matchCIWord_length h4
  have l5 := reqDashes_le h5
  have l6 := reqBody_le h6
  have l7 := reqDashes_le h7
  have l8 := matchCIWord_length h8
  have l9 := reqSpaces_le h9
  have l10 := matchCIWord_length h10
  have l11 := reqDashes_le h
  omega

/-! ### Unfolding equations for `redactCertificates` -/

theorem redactAux_fuel :
    ∀ (f : Nat) (s : List Char), s.length ≤ f →
      redactAux f s = redactAux s.length s := by
  intro f
  induction f using Nat.strong_induction_on with
  | _ f ih =>
  intro s hs
  cases s with
  | nil => cases f <;> simp [redactAux]
  | cons c cs =>
    cases f with
    | zero => simp at hs
    | succ f =>
      simp only [List.length_cons] at hs
      cases hm : matchCertAt (c :: cs) with
      | some rest =>
        have hlt := matchCertAt_length hm
        simp only [List.length_cons] at hlt
        simp only [redactAux, hm, List.length_cons]
        congr 1
        rw [ih f (Nat.lt_succ_self f) rest (by omega)]
        rw [ih cs.length (by omega) rest (by omega)]
      | none =>
        simp only [redactAux, hm, List.length_cons]
        congr 1
        rw [ih f (Nat.lt_succ_self f) cs (by omega)]

@[simp] theorem redactCertificates_nil : redactCertificates [] = [] := rfl

theorem matchCertAt_nil : matchCertAt [] = none := rfl

theorem redactCertificates_match {s rest : List Char}
    (h : matchCertAt s = some rest) :
    redactCertificates s = certSentinel ++ redactCertificates rest := by
  cases s with
  | nil => rw [matchCertAt_nil] at h; exact absurd h (by simp)
  | cons c cs =>
    have hlt := matchCertAt_length h
    simp only [List.length_cons] at hlt
    unfold redactCertificates
    simp only [List.length_cons, redactAux, h]
    congr 1
    exact redactAux_fuel cs.length rest (by omega)

theorem redactCertificates_nomatch {c : Char} {cs : List Char}
    (h : matchCertAt (c :: cs) = none) :
    redactCertificates (c :: cs) = c :: redactCertificates cs := by
  unfold redactCertificates
  simp only [List.length_cons, redactAux, h]

/-! ### No-match, skip and append lemmas -/

theorem matchCertAt_nondash {c : Char} {t : List Char}
    (h : isDash c = false) : matchCertAt (c :: t) = none := by
  unfold matchCertAt reqDashes
  simp [dropRun, h]

theorem redactCertificates_of_no_match {s : List Char}
    (h : hasCertMatch s = false) : redactCertificates s = s := by
  induction s with
  | nil => rfl
  | cons c cs ih =>
    simp only [hasCertMatch, Bool.or_eq_false_iff] at h
    cases hm : matchCertAt (c :: cs) with
    | some rest => rw [hm] at h; simp at h
    | none => rw [redactCertificates_nomatch hm, ih h.2]

theorem hasCertMatch_of_nodash {s : List Char}
    (h : ∀ c ∈ s, isDash c = false) : hasCertMatch s = false := by
  induction s with
  | nil => rfl
  | cons c cs ih =>
    simp only [hasCertMatch, Bool.or_eq_false_iff]
    refine ⟨?_, ih fun d hd => h d (by simp [hd])⟩
    rw [matchCertAt_nondash (h c (by simp))]
    rfl

theorem redactCertificates_append_nodash {pre s : List Char}
    (hpre : ∀ c ∈ pre, isDash c = false) :
    redactCertificates (pre ++ s) = pre ++ redactCertificates s := by
  induction pre with
  | nil => simp
  | cons c p ih =>
    have hc : isDash c = false := hpre c (by simp)
    rw [List.cons_append, redactCertificates_nomatch (matchCertAt_nondash hc),
      ih fun d hd => hpre d (by simp [hd]), List.cons_append]

theorem dropRun_append_all {p : Char → Bool} {a : List Char} (b : List Char)
    (ha : ∀ c ∈ a, p c = true) :
    dropRun p (a ++ b) = (a.length + (dropRun p b).1, (dropRun p b).2) := by
  induction a with
  | nil => simp [dropRun]
  | cons c t ih =>
    have hc : p c = true := ha c (by simp)
    have ih' := ih fun d hd => ha d (by simp [hd])
    simp [dropRun, hc, List.append_eq, ih']
    omega

theorem dropRun_head_false {p : Char → Bool} {b : List Char}
    (hb : ∀ c, b.head? = some c → p c = false) :
    dropRun p b = (0, b) := by
  cases b with
  | nil => rfl
  | cons c t =>
    have : p c = false := hb c rfl
    simp [dropRun, this]

theorem dropRun_append_run {p : Char → Bool} {a : List Char} (b : List Char)
    (ha : ∀ c ∈ a, p c = true)
    (hb : ∀ c, b.head? = some c → p c = false) :
    dropRun p (a ++ b) = (a.length, b) := by
  rw [dropRun_append_all b ha, dropRun_head_false hb]
  simp

theorem reqDashes_append {a : List Char} (b : List Char)
    (ha : ∀ c ∈ a, isDash c = true) (hlen : 5 ≤ a.length)
    (hb : ∀ c, b.head? = some c → isDash c = false) :
    reqDashes (a ++ b) = some b := by
  unfold reqDashes
  rw [dropRun_append_run b ha hb]
  split
  · rename_i hlt
    simp at hlt
    omega
  · simp

theorem reqSpaces_append {a : List Char} (b : List Char)
    (ha : ∀ c ∈ a, isSpaceCh c = true) (hlen : 1 ≤ a.length)
    (hb : ∀ c, b.head? = some c → isSpaceCh c = false) :
    reqSpaces (a ++ b) = some b := by
  unfold reqSpaces
  rw [dropRun_append_run b ha hb]
  split
  · rename_i hz
    have hz0 : a.length = 0 := hz
    omega
  · simp

theorem reqBody_append {a : List Char} (b : List Char)
    (ha : ∀ c ∈ a, isDash c = false) (hlen : 1 ≤ a.length)
    (hb : ∀ c, b.head? = some c → isDash c = true) :
    reqBody (a ++ b) = some b := by
  unfold reqBody
  rw [dropRun_append_run b (fun c hc => by simp [ha c hc])
    (fun c hc => by simp [hb c hc])]
  split
  · rename_i hz
    have hz0 : a.length = 0 := hz
    omega
  · simp

theorem matchCIWord_of_ci {w v : List Char} (rest : List Char)
    (h : CaseVariant w v) :
    matchCIWord w (v ++ rest) = some rest := by
  induction h with
  | nil => rfl
  | cons hab _ ih =>
    simp only [List.cons_append, matchCIWord, hab, if_pos, List.append_eq, ih]

/-! ### Matching a well-formed certificate block -/

theorem isDash_false_of_ci {a b : Char} (ha : a.toLower ≠ '-')
    (h : ciChar a b = true) : isDash b = false := by
  simp only [ciChar, decide_eq_true_eq] at h
  simp only [isDash, decide_eq_false_iff_not]
  intro hb
  subst hb
  exact ha (by rw [h]; decide)

theorem isSpaceCh_false_of_ci {a b : Char} (ha : isSpaceCh a.toLower = false)
    (h : ciChar a b = true) : isSpaceCh b = false := by
  simp only [ciChar, decide_eq_true_eq] at h
  cases hb : isSpaceCh b
  · rfl
  · exfalso
    simp only [isSpaceCh, Bool.or_eq_true, decide_eq_true_eq] at hb
    rcases hb with ((((h1 | h1) | h1) | h1) | h1) <;>
      (subst h1; rw [h] at ha; exact absurd ha (by decide))

theorem nodash_of_caseVariant {w v : List Char}
    (hw : ∀ a ∈ w, a.toLower ≠ '-') (h : CaseVariant w v) :
    ∀ c ∈ v, isDash c = false := by
  induction h with
  | nil => intro c hc; simp at hc
  | cons hab htl ih =>
    intro c hc
    rcases List.mem_cons.mp hc with hh | hh
    · subst hh
      exact isDash_false_of_ci (hw _ (by simp)) hab
    · exact ih (fun a ha => hw a (by simp [ha])) c hh

theorem nospace_of_caseVariant {w v : List Char}
    (hw : ∀ a ∈ w, isSpaceCh a.toLower = false) (h : CaseVariant w v) :
    ∀ c ∈ v, isSpaceCh c = false := by
  induction h with
  | nil => intro c hc; simp at hc
  | cons hab htl ih =>
    intro c hc
    rcases List.mem_cons.mp hc with hh | hh
    · subst hh
      exact isSpaceCh_false_of_ci (hw _ (by simp)) hab
    · exact ih (fun a ha => hw a (by simp [ha])) c hh

theorem caseVariant_ne_nil {w v : List Char} (hw : w ≠ [])
    (h : CaseVariant w v) : v ≠ [] := by
  intro hv
  subst hv
  cases h
  exact hw rfl

theorem head_cond_of_append {p : Char → Bool} {v : Bool} {X : List Char}
    (Y : List Char) (hne : X ≠ []) (hX : ∀ c ∈ X, p c = v) :
    ∀ c, (X ++ Y).head? = some c → p c = v := by
  cases X with
  | nil => exact absurd rfl hne
  | cons x xs =>
    intro c hc
    rw [List.cons_append, List.head?_cons] at hc
    simp only [Option.some.injEq] at hc
    subst hc
    exact hX x (by simp)

/-- A well-formed certificate block in its full regex generality —
dash runs of any length ≥ 5, any nonempty whitespace runs, any case
variants of the keywords, any nonempty dash-free body — matches at
its start, consuming exactly the block (the following text must not
begin with a dash, otherwise the trailing greedy dash run would
swallow its dashes too). -/
theorem matchCertAt_block
    {D1 D2 D3 D4 S1 S2 B C1 E C2 body : List Char} (post : List Char)
    (hD1 : ∀ c ∈ D1, isDash c = true) (hD1l : 5 ≤ D1.length)
    (hD2 : ∀ c ∈ D2, isDash c = true) (hD2l : 5 ≤ D2.length)
    (hD3 : ∀ c ∈ D3, isDash c = true) (hD3l : 5 ≤ D3.length)
    (hD4 : ∀ c ∈ D4, isDash c = true) (hD4l : 5 ≤ D4.length)
    (hS1 : ∀ c ∈ S1, isSpaceCh c = true) (hS1l : 1 ≤ S1.length)
    (hS2 : ∀ c ∈ S2, isSpaceCh c = true) (hS2l : 1 ≤ S2.length)
    (hB : CaseVariant beginWord B)
    (hC1 : CaseVariant certWord C1)
    (hE : CaseVariant endWord E)
    (hC2 : CaseVariant certWord C2)
    (hbody : body ≠ []) (hbodyd : ∀ c ∈ body, isDash c = false)
    (hpost : ∀ c, post.head? = some c → isDash c = false) :
    matchCertAt (D1 ++ B ++ S1 ++ C1 ++ D2 ++ body ++ D3 ++ E ++ S2 ++ C2
      ++ D4 ++ post) = some post := by
  have hBne : B ≠ [] := caseVariant_ne_nil (by simp [beginWord]) hB
  have hBd : ∀ c ∈ B, isDash c = false :=
    nodash_of_caseVariant (by decide) hB
  have hC1ne : C1 ≠ [] := caseVariant_ne_nil (by simp [certWord]) hC1
  have hC1s : ∀ c ∈ C1, isSpaceCh c = false :=
    nospace_of_caseVariant (by decide) hC1
  have hEne : E ≠ [] := caseVariant_ne_nil (by simp [endWord]) hE
  have hEd : ∀ c ∈ E, isDash c = false :=
    nodash_of_caseVariant (by decide) hE
  have hC2ne : C2 ≠ [] := caseVariant_ne_nil (by simp [certWord]) hC2
  have hC2s : ∀ c ∈ C2, isSpaceCh c = false :=
    nospace_of_caseVariant (by decide) hC2
  have hD3ne : D3 ≠ [] := by
    intro h3
    subst h3
    simp at hD3l
  simp only [List.append_assoc]
  simp only [matchCertAt, Option.bind_eq_some]
  exact ⟨_, reqDashes_append _ hD1 hD1l (head_cond_of_append _ hBne hBd),
    _, matchCIWord_of_ci _ hB,
    _, reqSpaces_append _ hS1 hS1l (head_cond_of_append _ hC1ne hC1s),
    _, matchCIWord_of_ci _ hC1,
    _, reqDashes_append _ hD2 hD2l (head_cond_of_append _ hbody hbodyd),
    _, reqBody_append _ hbodyd (List.length_pos.mpr hbody)
      (head_cond_of_append _ hD3ne hD3),
    _, reqDashes_append _ hD3 hD3l (head_cond_of_append _ hEne hEd),
    _, matchCIWord_of_ci _ hE,
    _, reqSpaces_append _ hS2 hS2l (head_cond_of_append _ hC2ne hC2s),
    _, matchCIWord_of_ci _ hC2,
    reqDashes_append _ hD4 hD4l hpost⟩

theorem head_cond_of_all {p : Char → Bool} {v : Bool} {l : List Char}
    (h : ∀ c ∈ l, p c = v) : ∀ c, l.head? = some c → p c = v := by
  cases l with
  | nil => intro c hc; simp at hc
  | cons x xs =>
    intro c hc
    simp only [List.head?_cons, Option.some.injEq] at hc
    subst hc
    exact h x (by simp)

/-- Redacting a string that consists of dash-free text, a fully general
well-formed certificate block, and dash-free text replaces exactly the
block with the sentinel and leaves the surrounding text unchanged. -/
theorem redactCertificates_block_general
    {pre D1 D2 D3 D4 S1 S2 B C1 E C2 body post : List Char}
    (hpre : ∀ c ∈ pre, isDash c = false)
    (hD1 : ∀ c ∈ D1, isDash c = true) (hD1l : 5 ≤ D1.length)
    (hD2 : ∀ c ∈ D2, isDash c = true) (hD2l : 5 ≤ D2.length)
    (hD3 : ∀ c ∈ D3, isDash c = true) (hD3l : 5 ≤ D3.length)
    (hD4 : ∀ c ∈ D4, isDash c = true) (hD4l : 5 ≤ D4.length)
    (hS1 : ∀ c ∈ S1, isSpaceCh c = true) (hS1l : 1 ≤ S1.length)
    (hS2 : ∀ c ∈ S2, isSpaceCh c = true) (hS2l : 1 ≤ S2.length)
    (hB : CaseVariant beginWord B)
    (hC1 : CaseVariant certWord C1)
    (hE : CaseVariant endWord E)
    (hC2 : CaseVariant certWord C2)
    (hbody : body ≠ []) (hbodyd : ∀ c ∈ body, isDash c = false)
    (hpostd : ∀ c ∈ post, isDash c = false) :
    redactCertificates (pre ++ D1 ++ B ++ S1 ++ C1 ++ D2 ++ body ++ D3
      ++ E ++ S2 ++ C2 ++ D4 ++ post) = pre ++ certSentinel ++ post := by
  have hm := matchCertAt_block post hD1 hD1l hD2 hD2l hD3 hD3l hD4 hD4l
    hS1 hS1l hS2 hS2l hB hC1 hE hC2 hbody hbodyd (head_cond_of_all hpostd)
  simp only [List.append_assoc] at hm ⊢
  rw [redactCertificates_append_nodash hpre, redactCertificates_match hm,
    redactCertificates_of_no_match (hasCertMatch_of_nodash hpostd)]

theorem caseVariant_refl (w : List Char) : CaseVariant w w := by
  induction w with
  | nil => exact List.Forall₂.nil
  | cons a t ih => exact List.Forall₂.cons (by simp [ciChar]) ih

theorem matchCertAt_certBlockOf {body : List Char} (post : List Char)
    (hbody : body ≠ []) (hbodyd : ∀ c ∈ body, isDash c = false)
    (hpost : ∀ c, post.head? = some c → isDash c = false) :
    matchCertAt (certBlockOf body ++ post) = some post := by
  have h := @matchCertAt_block dash5 dash5 dash5 dash5 [' '] [' ']
    beginWord certWord endWord certWord body post
    (by decide) (by decide) (by decide) (by decide) (by decide) (by decide)
    (by decide) (by decide) (by decide) (by decide) (by decide) (by decide)
    (caseVariant_refl _) (caseVariant_refl _) (caseVariant_refl _)
    (caseVariant_refl _) hbody hbodyd hpost
  simpa only [certBlockOf, List.append_assoc] using h

/-- Two canonical blocks with dash-free text before, between and after:
each block is replaced, all surrounding text survives verbatim. -/
theorem redactCertificates_two_blocks
    {pre b1 mid b2 post : List Char}
    (hpre : ∀ c ∈ pre, isDash c = false)
    (hb1 : b1 ≠ []) (hb1d : ∀ c ∈ b1, isDash c = false)
    (hmid : mid ≠ []) (hmidd : ∀ c ∈ mid, isDash c = false)
    (hb2 : b2 ≠ []) (hb2d : ∀ c ∈ b2, isDash c = false)
    (hpostd : ∀ c ∈ post, isDash c = false) :
    redactCertificates (pre ++ certBlockOf b1 ++ mid ++ certBlockOf b2
      ++ post) = pre ++ certSentinel ++ mid ++ certSentinel ++ post := by
  have hm1 : matchCertAt (certBlockOf b1 ++ (mid ++ (certBlockOf b2
      ++ post))) = some (mid ++ (certBlockOf b2 ++ post)) :=
    matchCertAt_certBlockOf _ hb1 hb1d
      (head_cond_of_append _ hmid hmidd)
  have hm2 : matchCertAt (certBlockOf b2 ++ post) = some post :=
    matchCertAt_certBlockOf _ hb2 hb2d (head_cond_of_all hpostd)
  simp only [List.append_assoc]
  rw [redactCertificates_append_nodash hpre]
  rw [show certBlockOf b1 ++ (mid ++ (certBlockOf b2 ++ post))
      = certBlockOf b1 ++ (mid ++ (certBlockOf b2 ++ post)) from rfl] at hm1
  rw [redactCertificates_match hm1, redactCertificates_append_nodash hmidd,
    redactCertificates_match hm2,
    redactCertificates_of_no_match (hasCertMatch_of_nodash hpostd)]

mutual

theorem shapeOf_redact : ∀ j : JValue,
    shapeOf (redactCertificatesInJSON j) = shapeOf j
  | .obj fields => by
    simp only [redactCertificatesInJSON, shapeOf]
    rw [shapeFields_redact fields]
  | .arr items => by
    simp only [redactCertificatesInJSON, shapeOf]
    rw [shapeItems_redact items]
  | .str s => rfl
  | .num n => rfl
  | .boolVal b => rfl
  | .nullVal => rfl

theorem shapeFields_redact : ∀ l : List (String × JValue),
    shapeFields (redactFields l) = shapeFields l
  | [] => rfl
  | kv :: rest => by
    simp only [redactFields, shapeFields]
    rw [shapeOf_redact kv.2, shapeFields_redact rest]

theorem shapeItems_redact : ∀ l : List JValue,
    shapeItems (redactItems l) = shapeItems l
  | [] => rfl
  | v :: rest => by
    simp only [redactItems, shapeItems]
    rw [shapeOf_redact v, shapeItems_redact rest]

end

mutual

theorem strLeaves_redact : ∀ j : JValue,
    strLeaves (redactCertificatesInJSON j) = (strLeaves j).map redactCertificates
  | .obj fields => by
    simp only [redactCertificatesInJSON, strLeaves]
    rw [strLeavesFields_redact fields]
  | .arr items => by
    simp only [redactCertificatesInJSON, strLeaves]
    rw [strLeavesItems_redact items]
  | .str s => rfl
  | .num n => rfl
  | .boolVal b => rfl
  | .nullVal => rfl

theorem strLeavesFields_redact : ∀ l : List (String × JValue),
    strLeavesFields (redactFields l) = (strLeavesFields l).map redactCertificates
  | [] => rfl
  | kv :: rest => by
    simp only [redactFields, strLeavesFields, List.map_append]
    rw [strLeaves_redact kv.2, strLeavesFields_redact rest]

theorem strLeavesItems_redact : ∀ l : List JValue,
    strLeavesItems (redactItems l) = (strLeavesItems l).map redactCertificates
  | [] => rfl
  | v :: rest => by
    simp only [redactItems, strLeavesItems, List.map_append]
    rw [strLeaves_redact v, strLeavesItems_redact rest]

end

mutual

theorem otherLeaves_redact : ∀ j : JValue,
    otherLeaves (redactCertificatesInJSON j) = otherLeaves j
  | .obj fields => by
    simp only [redactCertificatesInJSON, otherLeaves]
    rw [otherLeavesFields_redact fields]
  | .arr items => by
    simp only [redactCertificatesInJSON, otherLeaves]
    rw [otherLeavesItems_redact items]
  | .str s => rfl
  | .num n => rfl
  | .boolVal b => rfl
  | .nullVal => rfl

theorem otherLeavesFields_redact : ∀ l : List (String × JValue),
    otherLeavesFields (redactFields l) = otherLeavesFields l
  | [] => rfl
  | kv :: rest => by
    simp only [redactFields, otherLeavesFields]
    rw [otherLeaves_redact kv.2, otherLeavesFields_redact rest]

theorem otherLeavesItems_redact : ∀ l : List JValue,
    otherLeavesItems (redactItems l) = otherLeavesItems l
  | [] => rfl
  | v :: rest => by
    simp only [redactItems, otherLeavesItems]
    rw [otherLeaves_redact v, otherLeavesItems_redact rest]

end


/-! ### Helper lemmas for the pipeline and serialization -/

theorem filterSecretsLoop_eq (f : Secret → Bool) :
    ∀ (xs acc : List Secret),
      filterSecretsLoop f acc xs = acc ++ xs.filter f := by
  intro xs
  induction xs with
  | nil => intro acc; simp [filterSecretsLoop]
  | cons s rest ih =>
    intro acc
    cases hf : f s
    · simp [filterSecretsLoop, hf, ih, List.filter_cons]
    · simp [filterSecretsLoop, hf, ih, List.filter_cons]

theorem filterSecrets_eq (secretList : GoSlice Secret) (f : Secret → Bool) :
    filterSecrets secretList f = some (secretList.elems.filter f) := by
  simp [filterSecrets, filterSecretsLoop_eq]

theorem redactValues_keys (m : List (String × List Char)) :
    (redactValues m).map Prod.fst = m.map Prod.fst := by
  induction m with
  | nil => rfl
  | cons kv rest ih => simp [redactValues] at ih ⊢

theorem redactValues_forall₂ (m : List (String × List Char)) :
    List.Forall₂ (fun kv kv' => kv'.1 = kv.1 ∧ kv'.2 = redactCertificates kv.2)
      m (redactValues m) := by
  induction m with
  | nil => exact List.Forall₂.nil
  | cons kv rest ih => exact List.Forall₂.cons ⟨rfl, rfl⟩ ih

theorem caseVariant_of_ciWordEq :
    ∀ {w v : List Char}, ciWordEq w v = true → CaseVariant w v := by
  intro w
  induction w with
  | nil =>
    intro v h
    cases v with
    | nil => exact List.Forall₂.nil
    | cons b vs => simp [ciWordEq] at h
  | cons a ws ih =>
    intro v h
    cases v with
    | nil => simp [ciWordEq] at h
    | cons b vs =>
      simp only [ciWordEq, Bool.and_eq_true] at h
      exact List.Forall₂.cons h.1 (ih h.2)

theorem keyField_eq (k v : List Char) : keyField k v = keyMarker k ++ v := by
  simp [keyField, keyMarker]

theorem infix_joinFields {x : List Char} :
    ∀ {frags : List (List Char)}, x ∈ frags → x <:+: joinFields frags := by
  intro frags
  induction frags with
  | nil => intro h; simp at h
  | cons y rest ih =>
    intro h
    rcases List.mem_cons.mp h with rfl | hmem
    · cases rest with
      | nil => exact List.infix_rfl
      | cons z zs =>
        exact ⟨[], [','] ++ joinFields (z :: zs), by simp [joinFields]⟩
    · cases rest with
      | nil => simp at hmem
      | cons z zs =>
        have hsuf : joinFields (z :: zs) <:+: joinFields (y :: z :: zs) :=
          ⟨y ++ [','], [], by simp [joinFields]⟩
        exact (ih hmem).trans hsuf

theorem keyMarker_infix_marshal (prR : RawObj → List Char)
    (prC : ConfigMap → List Char) (prS : Secret → List Char)
    (d : scrapeData) (k v : List Char)
    (h : keyField k v ∈ marshalFrags prR prC prS d) :
    keyMarker k <:+: marshalScrapeData prR prC prS d := by
  have h1 : keyMarker k <+: keyField k v := ⟨v, (keyField_eq k v).symm⟩
  have h3 : joinFields (marshalFrags prR prC prS d)
      <:+: marshalScrapeData prR prC prS d :=
    ⟨['\x7b'], ['\x7d'], by simp [marshalScrapeData]⟩
  exact (h1.isInfix.trans (infix_joinFields h)).trans h3

theorem marshalSlice_empty {α : Type} (pr : α → List Char) :
    marshalSlice pr (some []) = ['[', ']'] := rfl

theorem marshalSlice_some_ne_null {α : Type} (pr : α → List Char)
    (xs : List α) : marshalSlice pr (some xs) ≠ ['n', 'u', 'l', 'l'] := by
  intro h
  simp [marshalSlice] at h

theorem route_firstError (q : ClusterQueries)
    (m : scrapeData → Except (List Char) (List Char)) :
    ∀ e, firstQueryError q = some e →
      routeScrapeData q m = ScrapeResponse.errorResp 500 e := by
  intro e he
  simp only [routeScrapeData, firstQueryError] at he ⊢
  cases h0 : q.pods with
  | error x =>
    simp only [h0] at he ⊢
    simp only [Option.some.injEq] at he
    subst he
    rfl
  | ok v0 =>
    simp only [h0] at he ⊢
    cases h1 : q.services with
    | error x =>
      simp only [h1] at he ⊢
      simp only [Option.some.injEq] at he
      subst he
      rfl
    | ok v1 =>
      simp only [h1] at he ⊢
      cases h2 : q.endpoints with
      | error x =>
        simp only [h2] at he ⊢
        simp only [Option.some.injEq] at he
        subst he
        rfl
      | ok v2 =>
        simp only [h2] at he ⊢
        cases h3 : q.pvs with
        | error x =>
          simp only [h3] at he ⊢
          simp only [Option.some.injEq] at he
          subst he
          rfl
        | ok v3 =>
          simp only [h3] at he ⊢
          cases h4 : q.pvcs with
          | error x =>
            simp only [h4] at he ⊢
            simp only [Option.some.injEq] at he
            subst he
            rfl
          | ok v4 =>
            simp only [h4] at he ⊢
            cases h5 : q.configmaps with
            | error x =>
              simp only [h5] at he ⊢
              simp only [Option.some.injEq] at he
              subst he
              rfl
            | ok v5 =>
              simp only [h5] at he ⊢
              cases h6 : q.secrets with
              | error x =>
                simp only [h6] at he ⊢
                simp only [Option.some.injEq] at he
                subst he
                rfl
              | ok v6 =>
                simp only [h6] at he ⊢
                cases h7 : q.deployments with
                | error x =>
                  simp only [h7] at he ⊢
                  simp only [Option.some.injEq] at he
                  subst he
                  rfl
                | ok v7 =>
                  simp only [h7] at he ⊢
                  cases h8 : q.daemonsets with
                  | error x =>
                    simp only [h8] at he ⊢
                    simp only [Option.some.injEq] at he
                    subst he
                    rfl
                  | ok v8 =>
                    simp only [h8] at he ⊢
                    cases h9 : q.replicasets with
                    | error x =>
                      simp only [h9] at he ⊢
                      simp only [Option.some.injEq] at he
                      subst he
                      rfl
                    | ok v9 =>
                      simp only [h9] at he ⊢
                      cases h10 : q.statefulsets with
                      | error x =>
                        simp only [h10] at he ⊢
                        simp only [Option.some.injEq] at he
                        subst he
                        rfl
                      | ok v10 =>
                        simp only [h10] at he ⊢
                        cases h11 : q.ingresses with
                        | error x =>
                          simp only [h11] at he ⊢
                          simp only [Option.some.injEq] at he
                          subst he
                          rfl
                        | ok v11 =>
                          simp only [h11] at he ⊢
                          exact absurd he (by simp)

theorem route_ok_no_error (q : ClusterQueries)
    (m : scrapeData → Except (List Char) (List Char)) (b : List Char)
    (hb : routeScrapeData q m = ScrapeResponse.okResp b) :
    firstQueryError q = none := by
  simp only [routeScrapeData] at hb
  simp only [firstQueryError]
  cases h0 : q.pods with
  | error x =>
    simp only [h0] at hb
    exact absurd hb (by simp)
  | ok v0 =>
    simp only [h0] at hb ⊢
    cases h1 : q.services with
    | error x =>
      simp only [h1] at hb
      exact absurd hb (by simp)
    | ok v1 =>
      simp only [h1] at hb ⊢
      cases h2 : q.endpoints with
      | error x =>
        simp only [h2] at hb
        exact absurd hb (by simp)
      | ok v2 =>
        simp only [h2] at hb ⊢
        cases h3 : q.pvs with
        | error x =>
          simp only [h3] at hb
          exact absurd hb (by simp)
        | ok v3 =>
          simp only [h3] at hb ⊢
          cases h4 : q.pvcs with
          | error x =>
            simp only [h4] at hb
            exact absurd hb (by simp)
          | ok v4 =>
            simp only [h4] at hb ⊢
            cases h5 : q.configmaps with
            | error x =>
              simp only [h5] at hb
              exact absurd hb (by simp)
            | ok v5 =>
              simp only [h5] at hb ⊢
              cases h6 : q.secrets with
              | error x =>
                simp only [h6] at hb
                exact absurd hb (by simp)
              | ok v6 =>
                simp only [h6] at hb ⊢
                cases h7 : q.deployments with
                | error x =>
                  simp only [h7] at hb
                  exact absurd hb (by simp)
                | ok v7 =>
                  simp only [h7] at hb ⊢
                  cases h8 : q.daemonsets with
                  | error x =>
                    simp only [h8] at hb
                    exact absurd hb (by simp)
                  | ok v8 =>
                    simp only [h8] at hb ⊢
                    cases h9 : q.replicasets with
                    | error x =>
                      simp only [h9] at hb
                      exact absurd hb (by simp)
                    | ok v9 =>
                      simp only [h9] at hb ⊢
                      cases h10 : q.statefulsets with
                      | error x =>
                        simp only [h10] at hb
                        exact absurd hb (by simp)
                      | ok v10 =>
                        simp only [h10] at hb ⊢
                        cases h11 : q.ingresses with
                        | error x =>
                          simp only [h11] at hb
                          exact absurd hb (by simp)
                        | ok v11 =>
                          simp only [h11] at hb ⊢

theorem route_marshal_error (q : ClusterQueries)
    (hq : firstQueryError q = none) (e : List Char) :
    routeScrapeData q (fun _ => Except.error e)
      = ScrapeResponse.errorResp 500 internalErrorMsg := by
  simp only [firstQueryError] at hq
  simp only [routeScrapeData]
  cases h0 : q.pods with
  | error x =>
    simp only [h0] at hq
    exact absurd hq (by simp)
  | ok v0 =>
    simp only [h0] at hq ⊢
    cases h1 : q.services with
    | error x =>
      simp only [h1] at hq
      exact absurd hq (by simp)
    | ok v1 =>
      simp only [h1] at hq ⊢
      cases h2 : q.endpoints with
      | error x =>
        simp only [h2] at hq
        exact absurd hq (by simp)
      | ok v2 =>
        simp only [h2] at hq ⊢
        cases h3 : q.pvs with
        | error x =>
          simp only [h3] at hq
          exact absurd hq (by simp)
        | ok v3 =>
          simp only [h3] at hq ⊢
          cases h4 : q.pvcs with
          | error x =>
            simp only [h4] at hq
            exact absurd hq (by simp)
          | ok v4 =>
            simp only [h4] at hq ⊢
            cases h5 : q.configmaps with
            | error x =>
              simp only [h5] at hq
              exact absurd hq (by simp)
            | ok v5 =>
              simp only [h5] at hq ⊢
              cases h6 : q.secrets with
              | error x =>
                simp only [h6] at hq
                exact absurd hq (by simp)
              | ok v6 =>
                simp only [h6] at hq ⊢
                cases h7 : q.deployments with
                | error x =>
                  simp only [h7] at hq
                  exact absurd hq (by simp)
                | ok v7 =>
                  simp only [h7] at hq ⊢
                  cases h8 : q.daemonsets with
                  | error x =>
                    simp only [h8] at hq
                    exact absurd hq (by simp)
                  | ok v8 =>
                    simp only [h8] at hq ⊢
                    cases h9 : q.replicasets with
                    | error x =>
                      simp only [h9] at hq
                      exact absurd hq (by simp)
                    | ok v9 =>
                      simp only [h9] at hq ⊢
                      cases h10 : q.statefulsets with
                      | error x =>
                        simp only [h10] at hq
                        exact absurd hq (by simp)
                      | ok v10 =>
                        simp only [h10] at hq ⊢
                        cases h11 : q.ingresses with
                        | error x =>
                          simp only [h11] at hq
                          exact absurd hq (by simp)
                        | ok v11 =>
                          simp only [h11] at hq ⊢


/-! ### Claim theorems -/

/-- C10: `filterSecrets` returns exactly the input elements satisfying
the predicate, in their original relative order (`List.filter`), and
the result is always a fresh non-nil slice (`some _`) — even for a nil
input or when every element is dropped — so the filtered secrets list
serializes as `[]`, never `null`. -/
theorem C10_filterSecrets_exact (secretList : GoSlice Secret)
    (f : Secret → Bool) :
    filterSecrets secretList f = some (secretList.elems.filter f) ∧
    filterSecrets (none : GoSlice Secret) f = some [] ∧
    (∀ pr : Secret → List Char,
      marshalSlice pr (filterSecrets (none : GoSlice Secret) f)
        = ['[', ']']) := by
  refine ⟨filterSecrets_eq secretList f, ?_, ?_⟩
  · rw [filterSecrets_eq]
    rfl
  · intro pr
    rw [filterSecrets_eq]
    rfl

/-- C7: redaction of Secrets and ConfigMaps preserves structure — the
key sets of the data, string-data, binary-data and annotation maps are
unchanged, and all fields other than those map values (name,
kind-specific payload, for ConfigMaps even the annotations) are
untouched; only leaf values are rewritten. -/
theorem C7_redaction_frame :
    (∀ s : Secret,
      (redactSecret s).data.map Prod.fst = s.data.map Prod.fst ∧
      (redactSecret s).stringData.map Prod.fst = s.stringData.map Prod.fst ∧
      (redactSecret s).annotations.map Prod.fst
        = s.annotations.map Prod.fst ∧
      (redactSecret s).name = s.name ∧
      (redactSecret s).secretType = s.secretType) ∧
    (∀ cm : ConfigMap,
      (redactConfigMap cm).data.map Prod.fst = cm.data.map Prod.fst ∧
      (redactConfigMap cm).binaryData.map Prod.fst
        = cm.binaryData.map Prod.fst ∧
      (redactConfigMap cm).name = cm.name ∧
      (redactConfigMap cm).annotations = cm.annotations) := by
  constructor
  · intro s
    exact ⟨redactValues_keys _, redactValues_keys _, redactValues_keys _,
      rfl, rfl⟩
  · intro cm
    exact ⟨redactValues_keys _, redactValues_keys _, rfl, rfl⟩

/-- C9: the recursive JSON walker preserves the tree shape (mapping
keys, sequence lengths and order, leaf kinds), applies the certificate
transform to every string leaf in visit order, and returns every
non-string leaf unchanged. -/
theorem C9_json_walker_spec :
    (∀ j : JValue, shapeOf (redactCertificatesInJSON j) = shapeOf j) ∧
    (∀ j : JValue, strLeaves (redactCertificatesInJSON j)
        = (strLeaves j).map redactCertificates) ∧
    (∀ j : JValue, otherLeaves (redactCertificatesInJSON j)
        = otherLeaves j) :=
  ⟨shapeOf_redact, strLeaves_redact, otherLeaves_redact⟩

/-- C2: no Secret whose name has the `sh.helm.release` marker ever
appears in the envelope's secrets list, for any inputs; the secrets
list is exactly the redaction of the filtered survivors — the marker
secrets are dropped before redaction, not redacted. -/
theorem C2_helm_secrets_excluded
    (pods services endpoints pvs pvcs : GoSlice RawObj)
    (configmaps : GoSlice ConfigMap) (secretsIn : GoSlice Secret)
    (deployments daemonsets replicasets statefulsets ingresses :
      GoSlice RawObj) :
    (∀ s ∈ GoSlice.elems (buildScrape pods services endpoints pvs pvcs
        configmaps secretsIn deployments daemonsets replicasets
        statefulsets ingresses).Secrets,
      List.isPrefixOf helmMarker s.name = false) ∧
    (buildScrape pods services endpoints pvs pvcs configmaps secretsIn
        deployments daemonsets replicasets statefulsets
        ingresses).Secrets
      = some (redactSecrets (secretsIn.elems.filter keepSecret)) := by
  have hsec : (buildScrape pods services endpoints pvs pvcs configmaps
      secretsIn deployments daemonsets replicasets statefulsets
      ingresses).Secrets
      = some (redactSecrets (secretsIn.elems.filter keepSecret)) := by
    simp [buildScrape, filterSecrets_eq]
  refine ⟨?_, hsec⟩
  intro s hs
  rw [hsec] at hs
  simp only [GoSlice.elems, Option.getD_some, redactSecrets,
    List.mem_map] at hs
  rcases hs with ⟨t, ht, rfl⟩
  have hk : keepSecret t = true := (List.mem_filter.mp ht).2
  simp only [keepSecret, Bool.not_eq_true'] at hk
  exact hk

/-- C2 witness: with one Helm release secret and one ordinary secret
in the input, the surviving envelope entry does not carry the
marker. -/
theorem C2_witness :
    List.isPrefixOf helmMarker (redactSecret dbSecret).name = false :=
  (C2_helm_secrets_excluded none none none none none none
      (some [helmSecret, dbSecret]) none none none none none).1
    (redactSecret dbSecret) (by decide)

/-- C1 counterexample: the claim says every surviving Secret data
value equals a sentinel, never the original.  But `redactSecrets` only
pattern-redacts certificates: the secret `db-creds` with data value
`cGFzcw==` passes through unchanged — the output value is the
original and is neither `__VALUE REDACTED__` nor the certificate
sentinel. -/
theorem C1_counterexample :
    redactSecrets [dbSecret] = [dbSecret] ∧
    dbSecret.data = [("password", "cGFzcw==".toList)] ∧
    "cGFzcw==".toList ≠ valueSentinel ∧
    "cGFzcw==".toList ≠ certSentinel := by decide

/-- C1 (amended): for every Secret surviving the filter, every value
in its data and string-data mappings equals the certificate-redaction
of the original value (keys and names unchanged); a value containing
no certificate-pattern match is returned unchanged — the original
value, not a sentinel. -/
theorem C1_secret_values (l : List Secret) :
    List.Forall₂ (fun s s' =>
      s'.name = s.name ∧
      List.Forall₂ (fun kv kv' =>
        kv'.1 = kv.1 ∧ kv'.2 = redactCertificates kv.2) s.data s'.data ∧
      List.Forall₂ (fun kv kv' =>
        kv'.1 = kv.1 ∧ kv'.2 = redactCertificates kv.2)
        s.stringData s'.stringData)
      l (redactSecrets l) ∧
    (∀ v : List Char, hasCertMatch v = false →
      redactCertificates v = v) := by
  constructor
  · induction l with
    | nil => exact List.Forall₂.nil
    | cons s rest ih =>
      exact List.Forall₂.cons
        ⟨rfl, redactValues_forall₂ _, redactValues_forall₂ _⟩ ih
  · exact fun v hv => redactCertificates_of_no_match hv

/-- C1 witness: the password value has no certificate match, so it
survives redaction unchanged. -/
theorem C1_witness :
    redactCertificates "cGFzcw==".toList = "cGFzcw==".toList :=
  (C1_secret_values [dbSecret]).2 _ (by decide)


/-- C3: the certificate transform (i) returns any input with no
certificate-pattern match unchanged; (ii) replaces a fully general
well-formed PEM block — case-insensitive keywords, dash runs of any
length ≥ 5, any nonempty whitespace runs, any nonempty dash-free body
— between dash-free text with exactly the certificate sentinel,
leaving the text before and after byte-for-byte unchanged; (iii) with
two blocks, matches each to its nearest END delimiter, and the text
before, between and after them survives byte-for-byte. -/
theorem C3_cert_redaction :
    (∀ s, hasCertMatch s = false → redactCertificates s = s) ∧
    (∀ pre D1 D2 D3 D4 S1 S2 B C1v E C2v body post : List Char,
      (∀ c ∈ pre, isDash c = false) →
      (∀ c ∈ D1, isDash c = true) → 5 ≤ D1.length →
      (∀ c ∈ D2, isDash c = true) → 5 ≤ D2.length →
      (∀ c ∈ D3, isDash c = true) → 5 ≤ D3.length →
      (∀ c ∈ D4, isDash c = true) → 5 ≤ D4.length →
      (∀ c ∈ S1, isSpaceCh c = true) → 1 ≤ S1.length →
      (∀ c ∈ S2, isSpaceCh c = true) → 1 ≤ S2.length →
      CaseVariant beginWord B → CaseVariant certWord C1v →
      CaseVariant endWord E → CaseVariant certWord C2v →
      body ≠ [] → (∀ c ∈ body, isDash c = false) →
      (∀ c ∈ post, isDash c = false) →
      redactCertificates (pre ++ D1 ++ B ++ S1 ++ C1v ++ D2 ++ body
        ++ D3 ++ E ++ S2 ++ C2v ++ D4 ++ post)
        = pre ++ certSentinel ++ post) ∧
    (∀ pre b1 mid b2 post : List Char,
      (∀ c ∈ pre, isDash c = false) →
      b1 ≠ [] → (∀ c ∈ b1, isDash c = false) →
      mid ≠ [] → (∀ c ∈ mid, isDash c = false) →
      b2 ≠ [] → (∀ c ∈ b2, isDash c = false) →
      (∀ c ∈ post, isDash c = false) →
      redactCertificates (pre ++ certBlockOf b1 ++ mid ++ certBlockOf b2
        ++ post)
        = pre ++ certSentinel ++ mid ++ certSentinel ++ post) := by
  refine ⟨fun s h => redactCertificates_of_no_match h, ?_, ?_⟩
  · intro pre D1 D2 D3 D4 S1 S2 B C1v E C2v body post
      g1 g2 g3 g4 g5 g6 g7 g8 g9 g10 g11 g12 g13 g14 g15 g16 g17 g18 g19 g20
    exact redactCertificates_block_general g1 g2 g3 g4 g5 g6 g7 g8 g9 g10
      g11 g12 g13 g14 g15 g16 g17 g18 g19 g20
  · intro pre b1 mid b2 post g1 g2 g3 g4 g5 g6 g7 g8
    exact redactCertificates_two_blocks g1 g2 g3 g4 g5 g6 g7 g8

/-- C3 witness: a lower/mixed-case block with six- and seven-dash
delimiters and tab/double-space separators, inside surrounding text,
is replaced by exactly the sentinel with the surroundings intact. -/
theorem C3_witness :
    redactCertificates ("cfg: ".toList ++ ['-', '-', '-', '-', '-', '-']
      ++ ['b', 'e', 'g', 'i', 'n'] ++ ['\t']
      ++ "certificate".toList ++ dash5 ++ "MIIB".toList ++ dash5
      ++ ['E', 'n', 'd'] ++ [' ', ' '] ++ certWord
      ++ ['-', '-', '-', '-', '-', '-', '-'] ++ " tail".toList)
      = "cfg: ".toList ++ certSentinel ++ " tail".toList :=
  C3_cert_redaction.2.1 _ _ _ _ _ _ _ _ _ _ _ _ _
    (by decide) (by decide) (by decide) (by decide) (by decide)
    (by decide) (by decide) (by decide) (by decide) (by decide)
    (by decide) (by decide) (by decide)
    (caseVariant_of_ciWordEq (by decide))
    (caseVariant_of_ciWordEq (by decide))
    (caseVariant_of_ciWordEq (by decide))
    (caseVariant_of_ciWordEq (by decide))
    (by decide) (by decide) (by decide)

/-- C4: if any of the twelve queries fails, the handler answers the
500 error carrying the first failing query's message (in the order the
code issues the queries) and no envelope is produced; a success
response is only ever produced when no query failed. -/
theorem C4_fail_fast (q : ClusterQueries)
    (m : scrapeData → Except (List Char) (List Char)) :
    (∀ e, firstQueryError q = some e →
      routeScrapeData q m = ScrapeResponse.errorResp 500 e) ∧
    (∀ b, routeScrapeData q m = ScrapeResponse.okResp b →
      firstQueryError q = none) :=
  ⟨route_firstError q m, fun b hb => route_ok_no_error q m b hb⟩

/-- C4 witness: with the services query failing (and pods succeeding),
the response is the 500 error with that query's message. -/
theorem C4_witness :
    routeScrapeData qFailServices
      (fun d => Except.ok
        (marshalScrapeData emptyPrinter emptyPrinter emptyPrinter d))
      = ScrapeResponse.errorResp 500 "services list failed".toList :=
  (C4_fail_fast qFailServices
    (fun d => Except.ok
      (marshalScrapeData emptyPrinter emptyPrinter emptyPrinter d))).1
    _ (by decide)

/-- C8: two-kind error taxonomy — a failing cluster list query yields
a 500 carrying the underlying message; with all queries succeeding, a
failing serialization yields a 500 whose body is the fixed generic
`Internal Server Error` text, independent of the underlying error
detail. -/
theorem C8_error_taxonomy (q : ClusterQueries) :
    (∀ (m : scrapeData → Except (List Char) (List Char)) e,
      firstQueryError q = some e →
      routeScrapeData q m = ScrapeResponse.errorResp 500 e) ∧
    (firstQueryError q = none →
      ∀ e1 e2 : List Char,
        routeScrapeData q (fun _ => Except.error e1)
          = ScrapeResponse.errorResp 500 internalErrorMsg ∧
        routeScrapeData q (fun _ => Except.error e1)
          = routeScrapeData q (fun _ => Except.error e2)) ∧
    internalErrorMsg = "Internal Server Error".toList := by
  refine ⟨fun m e he => route_firstError q m e he, ?_, rfl⟩
  intro hq e1 e2
  exact ⟨route_marshal_error q hq e1,
    by rw [route_marshal_error q hq e1, route_marshal_error q hq e2]⟩

/-- C8 witness: with all queries succeeding and a failing marshaller,
the response is the generic 500. -/
theorem C8_witness :
    routeScrapeData qAllOk (fun _ => Except.error "cycle".toList)
      = ScrapeResponse.errorResp 500 internalErrorMsg :=
  ((C8_error_taxonomy qAllOk).2.1 (by decide)
    "cycle".toList "x".toList).1


/-- C5 counterexample: sanitization is not idempotent.  For a Secret
whose data value nests one certificate block inside another pair of
BEGIN/END delimiters, the first pass redacts only the inner block; the
second pass then matches the outer delimiters around the dash-free
sentinel and redacts again, so re-sanitizing an already-sanitized
collection changes it. -/
theorem C5_counterexample :
    redactSecrets (redactSecrets [nestedSecret])
      ≠ redactSecrets [nestedSecret] := by decide

/-- C5 (amended): release-marker filtering is idempotent, the
certificate sentinel neither matches the certificate pattern nor
carries the release marker (so it is never re-filtered and, alone,
never re-redacted), and re-redaction is the identity on every value
whose first redaction left no certificate-pattern match; full
idempotence fails only when remaining text around an already-redacted
region still matches the pattern (see the counterexample). -/
theorem C5_conditional_idempotence :
    (∀ s : List Char, hasCertMatch (redactCertificates s) = false →
      redactCertificates (redactCertificates s) = redactCertificates s) ∧
    hasCertMatch certSentinel = false ∧
    redactCertificates certSentinel = certSentinel ∧
    List.isPrefixOf helmMarker certSentinel = false ∧
    (∀ (sl : GoSlice Secret) (f : Secret → Bool),
      filterSecrets (filterSecrets sl f) f = filterSecrets sl f) := by
  refine ⟨fun s h => redactCertificates_of_no_match h,
    by decide, by decide, by decide, ?_⟩
  intro sl f
  rw [filterSecrets_eq, filterSecrets_eq]
  simp only [GoSlice.elems, Option.getD_some, Option.some.injEq]
  simp [List.filter_filter]

/-- C5 witness: a value whose redaction leaves no match is a fixed
point of a second redaction. -/
theorem C5_witness :
    redactCertificates (redactCertificates "plain text".toList)
      = redactCertificates "plain text".toList :=
  C5_conditional_idempotence.1 _ (by decide)

/-- C6 counterexample: the claim says every kind with no elements
serializes as `[]`, never null.  But the handler passes each query's
`Items` slice straight through, and a nil slice marshals to `null`: a
fully successful request whose pods query returned a nil slice yields
a body containing `"pods":null` and no `"pods":[]`. -/
theorem C6_counterexample :
    containsSub ("\"pods\":null".toList)
      (marshalScrapeData emptyPrinter emptyPrinter emptyPrinter envNilPods)
      = true ∧
    containsSub ("\"pods\":[]".toList)
      (marshalScrapeData emptyPrinter emptyPrinter emptyPrinter envNilPods)
      = false ∧
    routeScrapeData qNilPods
      (fun d => Except.ok
        (marshalScrapeData emptyPrinter emptyPrinter emptyPrinter d))
      = ScrapeResponse.okResp
        (marshalScrapeData emptyPrinter emptyPrinter emptyPrinter
          envNilPods) := by
  refine ⟨by decide, by decide, ?_⟩
  rfl

/-- C6 (amended): all twelve keys are always present in the serialized
envelope in struct order; an empty non-nil slice serializes as the
empty array `[]` and a non-nil slice never serializes as `null`; the
pipeline's secrets slice is always non-nil; but a kind whose query
returned a nil slice serializes as `null` (see the counterexample). -/
theorem C6_keys_and_arrays :
    (∀ (prR : RawObj → List Char) (prC : ConfigMap → List Char)
       (prS : Secret → List Char) (d : scrapeData),
      ∀ k ∈ twelveKeys,
        keyMarker k <:+: marshalScrapeData prR prC prS d) ∧
    (∀ (α : Type) (pr : α → List Char),
      marshalSlice pr (some []) = ['[', ']']) ∧
    (∀ (α : Type) (pr : α → List Char) (xs : List α),
      marshalSlice pr (some xs) ≠ ['n', 'u', 'l', 'l']) ∧
    (∀ pods services endpoints pvs pvcs configmaps secrets deployments
       daemonsets replicasets statefulsets ingresses,
      ((buildScrape pods services endpoints pvs pvcs configmaps secrets
        deployments daemonsets replicasets statefulsets
        ingresses).Secrets).isSome = true) := by
  refine ⟨?_, fun α pr => rfl,
    fun α pr xs => marshalSlice_some_ne_null pr xs, ?_⟩
  · intro prR prC prS d k hk
    simp only [twelveKeys, List.mem_cons, List.not_mem_nil, or_false] at hk
    rcases hk with rfl | rfl | rfl | rfl | rfl | rfl | rfl | rfl | rfl
      | rfl | rfl | rfl
    · exact keyMarker_infix_marshal prR prC prS d _
        (marshalSlice prR d.Pods) (by simp [marshalFrags])
    · exact keyMarker_infix_marshal prR prC prS d _
        (marshalSlice prR d.Services) (by simp [marshalFrags])
    · exact keyMarker_infix_marshal prR prC prS d _
        (marshalSlice prR d.Endpoints) (by simp [marshalFrags])
    · exact keyMarker_infix_marshal prR prC prS d _
        (marshalSlice prR d.PersistentVolumes) (by simp [marshalFrags])
    · exact keyMarker_infix_marshal prR prC prS d _
        (marshalSlice prR d.PersistentVolumeClaims) (by simp [marshalFrags])
    · exact keyMarker_infix_marshal prR prC prS d _
        (marshalSlice prR d.Deployments) (by simp [marshalFrags])
    · exact keyMarker_infix_marshal prR prC prS d _
        (marshalSlice prR d.DaemonSets) (by simp [marshalFrags])
    · exact keyMarker_infix_marshal prR prC prS d _
        (marshalSlice prR d.ReplicaSets) (by simp [marshalFrags])
    · exact keyMarker_infix_marshal prR prC prS d _
        (marshalSlice prR d.StatefulSets) (by simp [marshalFrags])
    · exact keyMarker_infix_marshal prR prC prS d _
        (marshalSlice prR d.Ingresses) (by simp [marshalFrags])
    · exact keyMarker_infix_marshal prR prC prS d _
        (marshalSlice prC d.ConfigMaps) (by simp [marshalFrags])
    · exact keyMarker_infix_marshal prR prC prS d _
        (marshalSlice prS d.Secrets) (by simp [marshalFrags])
  · intro pods services endpoints pvs pvcs configmaps secrets deployments
      daemonsets replicasets statefulsets ingresses
    simp [buildScrape, filterSecrets]

/-- C6 witness: a concrete envelope contains the ingresses key. -/
theorem C6_witness :
    keyMarker "ingresses".toList <:+:
      marshalScrapeData emptyPrinter emptyPrinter emptyPrinter envNilPods :=
  C6_keys_and_arrays.1 emptyPrinter emptyPrinter emptyPrinter envNilPods
    _ (by decide)

end KubeView
